import Mathlib

/-!
Shallow embedding of the `blueprint` service core: the sliding-window rate
limiter and metrics recorder of `handler/blueprint.go`, and the write-through
cache of `pkg/cache` (`model/other/other.go` in this layout).

Timestamps and durations are modelled as `Int` (seconds); the Go
`time.Minute` window is 60, the 5-minute response TTL is 300.  The Redis
backend is modelled as a deterministic key/value store (an association list
from fully-qualified key to payload bytes and TTL); transient backend I/O
failures are injected explicitly where an operation's contract depends on
them (the retry loop of `Set`, the single attempt of `SetWithTTL`) and are
not modelled elsewhere.  JSON serialization is modelled by explicit
encode/decode parameters (`Option`-valued decode captures unmarshal
failure), since the payload format is opaque to the logic under study.
-/

/-! ### Rate limiter (`handler/blueprint.go`, `checkRateLimit`) -/

/-- The per-identifier request-timestamp map `map[string][]time.Time`,
modelled as an association list. -/
abbrev ReqMap := List (String × List Int)

/-- Map lookup: `requests, exists := rl.requests[identifier]`. -/
def lookupReq : ReqMap → String → Option (List Int)
  | [], _ => none
  | (k, v) :: rest, key => if k = key then some v else lookupReq rest key

/-- Map assignment: `rl.requests[identifier] = v` (replace or insert). -/
def insertReq : ReqMap → String → List Int → ReqMap
  | [], key, v => [(key, v)]
  | (k, w) :: rest, key, v =>
    if k = key then (key, v) :: rest else (k, w) :: insertReq rest key v

/-- The `RateLimiter` struct: requests map, `limit`, `window`. -/
structure RateLimiter where
  requests : ReqMap
  limit : Nat
  window : Int
deriving DecidableEq

/-- The rate limiter built by `NewBlueprint`: empty map, limit 100,
window `time.Minute` (60 s). -/
def newRateLimiter : RateLimiter :=
  { requests := [], limit := 100, window := 60 }

/-- `checkRateLimit(ctx, identifier) bool`, with the mutated limiter state
returned explicitly.  Mirrors the source: compute `windowStart`; a missing
entry stores `[now]` and admits; otherwise keep only timestamps strictly
after `windowStart` (`t.After(windowStart)`), reject without recording when
the survivor count reaches `limit`, else append `now` and admit. -/
def checkRateLimit (rl : RateLimiter) (identifier : String) (now : Int) :
    Bool × RateLimiter :=
  let windowStart := now - rl.window
  match lookupReq rl.requests identifier with
  | none => (true, { rl with requests := insertReq rl.requests identifier [now] })
  | some requests =>
    let validRequests := requests.filter (fun t => windowStart < t)
    if rl.limit ≤ validRequests.length then
      (false, rl)
    else
      (true, { rl with requests := insertReq rl.requests identifier (validRequests ++ [now]) })

/-- Run a sequence of admission checks for one identifier, returning the
final limiter state and the list of admission decisions. -/
def runCalls (rl : RateLimiter) (identifier : String) : List Int → RateLimiter × List Bool
  | [] => (rl, [])
  | t :: ts =>
    let r := checkRateLimit rl identifier t
    let rest := runCalls r.2 identifier ts
    (rest.1, r.1 :: rest.2)

theorem lookupReq_insertReq_self (m : ReqMap) (key : String) (v : List Int) :
    lookupReq (insertReq m key v) key = some v := by
  induction m with
  | nil => simp [insertReq, lookupReq]
  | cons hd tl ih =>
    obtain ⟨k, w⟩ := hd
    by_cases h : k = key
    · simp [insertReq, lookupReq, h]
    · simp [insertReq, lookupReq, h, ih]

theorem runCalls_append (rl : RateLimiter) (identifier : String)
    (as bs : List Int) :
    runCalls rl identifier (as ++ bs) =
      ((runCalls (runCalls rl identifier as).1 identifier bs).1,
        (runCalls rl identifier as).2 ++
          (runCalls (runCalls rl identifier as).1 identifier bs).2) := by
  induction as generalizing rl with
  | nil => simp [runCalls]
  | cons a as ih => simp [runCalls, ih]

/-- Core induction for the sliding-window scenario: starting from a state
whose entry for `identifier` is `acc`, a burst `ts` in which every stored
timestamp survives every later prune fills the entry to `acc ++ ts`, each
call admitted, as long as the total count stays within the limit. -/
theorem runCalls_admits (identifier : String) :
    ∀ (ts : List Int) (rl : RateLimiter) (acc : List Int),
      lookupReq rl.requests identifier = some acc →
      (∀ x ∈ acc, ∀ t ∈ ts, t - rl.window < x) →
      List.Pairwise (fun a b => b - rl.window < a) ts →
      acc.length + ts.length ≤ rl.limit →
      (runCalls rl identifier ts).2 = List.replicate ts.length true ∧
        lookupReq (runCalls rl identifier ts).1.requests identifier = some (acc ++ ts) ∧
        (runCalls rl identifier ts).1.limit = rl.limit ∧
        (runCalls rl identifier ts).1.window = rl.window := by
  intro ts
  induction ts with
  | nil =>
    intro rl acc hlook _ _ _
    simpa [runCalls] using hlook
  | cons t ts ih =>
    intro rl acc hlook hkeep hpw hlen
    have hfilter : acc.filter (fun x => decide (t - rl.window < x)) = acc := by
      apply List.filter_eq_self.mpr
      intro x hx
      simpa using hkeep x hx t (by simp)
    have hcount : acc.length < rl.limit := by
      simp only [List.length_cons] at hlen
      omega
    have hstep : checkRateLimit rl identifier t =
        (true, { rl with requests := insertReq rl.requests identifier (acc ++ [t]) }) := by
      simp only [checkRateLimit, hlook, hfilter]
      rw [if_neg (by omega)]
    have hpw' := List.pairwise_cons.mp hpw
    have hrec := ih { rl with requests := insertReq rl.requests identifier (acc ++ [t]) }
      (acc ++ [t])
      (by simpa using lookupReq_insertReq_self rl.requests identifier (acc ++ [t]))
      (by
        intro x hx u hu
        simp only [List.mem_append, List.mem_singleton] at hx
        rcases hx with hx | hx
        · exact hkeep x hx u (by simp [hu])
        · subst hx; exact hpw'.1 u hu)
      hpw'.2
      (by simp only [List.length_append, List.length_singleton, List.length_nil,
            List.length_cons] at hlen ⊢; omega)
    refine ⟨?_, ?_, ?_, ?_⟩
    · simp only [runCalls, hstep, List.length_cons, List.replicate_succ]
      exact congrArg (true :: ·) hrec.1
    · simp only [runCalls, hstep]
      simpa [List.append_assoc] using hrec.2.1
    · simpa [runCalls, hstep] using hrec.2.2.1
    · simpa [runCalls, hstep] using hrec.2.2.2

theorem length_filter_lt_of_mem_not {l : List Int} {p : Int → Bool} {x : Int}
    (hx : x ∈ l) (hpx : p x = false) : (l.filter p).length < l.length := by
  induction l with
  | nil => cases hx
  | cons a l ih =>
    rcases List.mem_cons.mp hx with rfl | hx'
    · rw [List.filter_cons_of_neg (by simp [hpx])]
      have := l.length_filter_le p
      simp only [List.length_cons]
      omega
    · by_cases hpa : p a = true
      · rw [List.filter_cons_of_pos hpa]
        simpa using ih hx'
      · rw [List.filter_cons_of_neg (by simpa using hpa)]
        have := ih hx'
        simp only [List.length_cons]
        omega

/-- C1: with the fixed policy limit `L = 100` and window `W = 60` s, each
`checkRateLimit` call computes `windowStart = now - 60`, keeps only stored
timestamps strictly after it, rejects without recording `now` when the
survivor count is at least 100, and otherwise appends `now` and admits;
consequently a burst of 100 calls within one window (here: 100 admitted
timestamps `ts` followed by `tLast` in the same window) is fully admitted
and the 101st call is rejected, and once the window fully elapses past some
recorded timestamp admission resumes. -/
theorem checkRateLimit_sliding_window (identifier : String)
    (ts : List Int) (tLast : Int)
    (hlen : ts.length = 100)
    (hord : List.Pairwise (fun a b => a ≤ b ∧ b - a < 60) (ts ++ [tLast])) :
    (runCalls newRateLimiter identifier (ts ++ [tLast])).2 =
        List.replicate 100 true ++ [false] ∧
      (∀ (rl : RateLimiter) (id : String) (now : Int) (l : List Int),
        rl.limit = 100 → rl.window = 60 →
        lookupReq rl.requests id = some l →
        100 ≤ (l.filter (fun t => now - 60 < t)).length →
        checkRateLimit rl id now = (false, rl)) ∧
      (∀ (rl : RateLimiter) (id : String) (now : Int) (l : List Int),
        rl.limit = 100 → rl.window = 60 →
        lookupReq rl.requests id = some l →
        (l.filter (fun t => now - 60 < t)).length < 100 →
        checkRateLimit rl id now =
          (true, { rl with
            requests := insertReq rl.requests id
              (l.filter (fun t => now - 60 < t) ++ [now]) })) ∧
      (∀ (rl : RateLimiter) (id : String) (now : Int) (l : List Int),
        rl.limit = 100 → rl.window = 60 →
        lookupReq rl.requests id = some l →
        l.length ≤ 100 →
        (∃ t ∈ l, t ≤ now - 60) →
        (checkRateLimit rl id now).1 = true) := by
  refine ⟨?_, ?_, ?_, ?_⟩
  · -- the burst scenario
    have hpairs := List.pairwise_append.mp hord
    cases ts with
    | nil => simp at hlen
    | cons t0 ts' =>
      have hpw0 := List.pairwise_cons.mp hpairs.1
      -- first call: no entry yet, stores [t0] and admits
      have hstep0 : checkRateLimit newRateLimiter identifier t0 =
          (true, { newRateLimiter with requests := [(identifier, [t0])] }) := by
        simp [checkRateLimit, newRateLimiter, lookupReq, insertReq]
      have hburst := runCalls_admits identifier ts'
        { newRateLimiter with requests := [(identifier, [t0])] } [t0]
        (by simp [lookupReq])
        (by
          intro x hx u hu
          simp only [List.mem_singleton] at hx
          subst hx
          have := hpw0.1 u hu
          simp only [newRateLimiter]
          omega)
        (by
          refine hpw0.2.imp ?_
          intro a b hab
          simp only [newRateLimiter]
          omega)
        (by simp only [newRateLimiter, List.length_singleton]
            simp only [List.length_cons] at hlen
            omega)
      -- after the burst the entry holds all 100 timestamps
      have hlast : ∀ x ∈ t0 :: ts', tLast - 60 < x := by
        intro x hx
        have := hpairs.2.2 x hx tLast (by simp)
        omega
      have hfinal := runCalls_append newRateLimiter identifier (t0 :: ts') [tLast]
      have hbody : runCalls newRateLimiter identifier (t0 :: ts') =
          ((runCalls { newRateLimiter with requests := [(identifier, [t0])] }
              identifier ts').1,
            true :: (runCalls { newRateLimiter with requests := [(identifier, [t0])] }
              identifier ts').2) := by
        simp [runCalls, hstep0]
      set rlMid := (runCalls { newRateLimiter with requests := [(identifier, [t0])] }
        identifier ts').1 with hrlMid
      have hlook : lookupReq rlMid.requests identifier = some (t0 :: ts') := by
        simpa using hburst.2.1
      have hfilterAll : (t0 :: ts').filter (fun t => decide (tLast - 60 < t)) =
          t0 :: ts' :=
        List.filter_eq_self.mpr (fun x hx => by simpa using hlast x hx)
      have hreject : checkRateLimit rlMid identifier tLast = (false, rlMid) := by
        have hlim : rlMid.limit = 100 := by simpa [newRateLimiter] using hburst.2.2.1
        have hwin : rlMid.window = 60 := by simpa [newRateLimiter] using hburst.2.2.2
        simp only [checkRateLimit, hlook, hwin, hlim, hfilterAll]
        rw [if_pos]
        simp only [List.length_cons] at hlen ⊢
        omega
      rw [hfinal, hbody]
      simp only [runCalls, hreject]
      have h2 : true :: (runCalls { newRateLimiter with
          requests := [(identifier, [t0])] } identifier ts').2 ++ [false] =
          List.replicate 100 true ++ [false] := by
        rw [hburst.1]
        have : ts'.length = 99 := by
          simp only [List.length_cons] at hlen; omega
        rw [this]
        rfl
      simpa using h2
  · -- rejection without recording
    intro rl id now l hlim hwin hlook hcount
    simp only [checkRateLimit, hlook, hwin]
    rw [if_pos (by rw [hlim]; simpa using hcount)]
  · -- admission appends now
    intro rl id now l hlim hwin hlook hcount
    simp only [checkRateLimit, hlook, hwin]
    rw [if_neg (by rw [hlim]; simpa using hcount)]
  · -- resumption once the window passes a recorded timestamp
    intro rl id now l hlim hwin hlook hlen100 hex
    obtain ⟨t, htl, ht⟩ := hex
    have hdrop : (l.filter (fun x => decide (now - 60 < x))).length < l.length :=
      length_filter_lt_of_mem_not htl (by simpa using ht)
    simp only [checkRateLimit, hlook, hwin]
    rw [if_neg (by rw [hlim]; omega)]

/-- Witness for `checkRateLimit_sliding_window` at a concrete 101-call burst. -/
theorem checkRateLimit_sliding_window_witness :
    (List.replicate 100 (0 : Int)).length = 100 ∧
      List.Pairwise (fun a b => a ≤ b ∧ b - a < 60)
        (List.replicate 100 (0 : Int) ++ [(0 : Int)]) ∧
      (runCalls newRateLimiter "alice"
          (List.replicate 100 (0 : Int) ++ [(0 : Int)])).2 =
        List.replicate 100 true ++ [false] :=
  ⟨by decide, by decide,
    (checkRateLimit_sliding_window "alice" (List.replicate 100 (0 : Int)) 0
      (by decide) (by decide)).1⟩

/-- C8: per-identifier state invariant of the rate limiter.  Whenever the
stored sequence is pruned against `now` (all stored timestamps being at most
`now`, i.e. recorded in the past), the pruned sequence contains only
timestamps within `[now - window, now]`; and immediately after any
successful admission decision, the stored sequence for that identifier has
length at most `limit`. -/
theorem checkRateLimit_state_invariant (rl : RateLimiter) (now : Int)
    (id : String) (l : List Int)
    (hlim : 1 ≤ rl.limit)
    (hlook : lookupReq rl.requests id = some l)
    (hpast : ∀ t ∈ l, t ≤ now) :
    (∀ t ∈ l.filter (fun t => now - rl.window < t),
        now - rl.window ≤ t ∧ t ≤ now) ∧
      (∀ id' : String, (checkRateLimit rl id' now).1 = true →
        ∃ l', lookupReq (checkRateLimit rl id' now).2.requests id' = some l' ∧
          l'.length ≤ rl.limit) := by
  constructor
  · intro t ht
    have ht' := List.mem_filter.mp ht
    have hlt : now - rl.window < t := by simpa using ht'.2
    exact ⟨le_of_lt hlt, hpast t ht'.1⟩
  · intro id' hallow
    match hlook' : lookupReq rl.requests id' with
    | none =>
      refine ⟨[now], ?_, ?_⟩
      · simp only [checkRateLimit, hlook']
        simpa using lookupReq_insertReq_self rl.requests id' [now]
      · simpa using hlim
    | some l' =>
      by_cases hfull : rl.limit ≤ (l'.filter (fun t => now - rl.window < t)).length
      · exfalso
        simp only [checkRateLimit, hlook'] at hallow
        rw [if_pos hfull] at hallow
        simp at hallow
      · refine ⟨l'.filter (fun t => now - rl.window < t) ++ [now], ?_, ?_⟩
        · simp only [checkRateLimit, hlook']
          rw [if_neg hfull]
          simpa using lookupReq_insertReq_self rl.requests id' _
        · simp only [List.length_append, List.length_singleton]
          omega

/-- Witness for `checkRateLimit_state_invariant` at a concrete limiter state. -/
theorem checkRateLimit_state_invariant_witness :
    1 ≤ ({ requests := [("alice", [5])], limit := 100, window := 60 } :
        RateLimiter).limit ∧
      lookupReq ({ requests := [("alice", [5])], limit := 100, window := 60 } :
        RateLimiter).requests "alice" = some [5] ∧
      (∀ t ∈ ([5] : List Int), t ≤ 10) ∧
      (∀ t ∈ ([5] : List Int).filter (fun t => 10 - (60 : Int) < t),
        (10 : Int) - 60 ≤ t ∧ t ≤ 10) :=
  ⟨by decide, by decide, by decide,
    by
      have h := (checkRateLimit_state_invariant
        { requests := [("alice", [5])], limit := 100, window := 60 } 10 "alice" [5]
        (by decide) (by decide) (by decide)).1
      simpa using h⟩

/-! ### Cache store (`pkg/cache`, in `model/other/other.go` of this layout) -/

/-- Serialized payload bytes. -/
abbrev Bytes := List Nat

/-- The Redis backend content: fully-qualified key, payload, TTL. -/
abbrev Store := List (String × Bytes × Int)

/-- Backend `GET key` (`redis.Nil` when absent is modelled as `none`). -/
def storeGet : Store → String → Option Bytes
  | [], _ => none
  | (k, d, _) :: rest, key => if k = key then some d else storeGet rest key

/-- Backend `SETEX key data ttl`: replace or insert. -/
def storeSet : Store → String → Bytes → Int → Store
  | [], key, data, ttl => [(key, data, ttl)]
  | (k, d, t) :: rest, key, data, ttl =>
    if k = key then (key, data, ttl) :: rest
    else (k, d, t) :: storeSet rest key data ttl

/-- Backend `DEL` of a single key: whether it existed, and the store after. -/
def storeDel1 : Store → String → Bool × Store
  | [], _ => (false, [])
  | (k, d, t) :: rest, key =>
    if k = key then (true, rest)
    else
      let r := storeDel1 rest key
      (r.1, (k, d, t) :: r.2)

/-- Backend `DEL k1 k2 ...`: the number of keys actually removed (its
`Result()`), and the store after. -/
def storeDelAll : Store → List String → Nat × Store
  | store, [] => (0, store)
  | store, k :: ks =>
    let r := storeDel1 store k
    let rest := storeDelAll r.2 ks
    ((if r.1 then 1 else 0) + rest.1, rest.2)

/-- The `CacheStats` struct. -/
structure CacheStats where
  Hits : Nat
  Misses : Nat
  Sets : Nat
  Deletes : Nat
deriving DecidableEq

/-- Cache configuration: key namespace string (`prefix` in the source),
default expiration, max retries. -/
structure CacheConfig where
  pfx : String
  expiration : Int
  maxRetries : Nat
deriving DecidableEq

/-- The defaults of `NewCache`: namespace `"blueprint"`, expiration one
hour, three retries. -/
def defaultCacheConfig : CacheConfig :=
  { pfx := "blueprint", expiration := 3600, maxRetries := 3 }

/-- The mutable part of the `Cache` struct: backend content and stats. -/
structure CacheState where
  store : Store
  stats : CacheStats
deriving DecidableEq

/-- `createKey`: `fmt.Sprintf("%s:%s", c.prefix, key)`. -/
def createKey (cfg : CacheConfig) (key : String) : String :=
  cfg.pfx ++ ":" ++ key

/-- `incrementStatsBy(statType, count)`: string-keyed switch, as in the
source. -/
def incrementStatsBy (st : CacheStats) (statType : String) (count : Nat) :
    CacheStats :=
  match statType with
  | "hits" => { st with Hits := st.Hits + count }
  | "misses" => { st with Misses := st.Misses + count }
  | "sets" => { st with Sets := st.Sets + count }
  | "deletes" => { st with Deletes := st.Deletes + count }
  | _ => st

/-- `incrementStats(statType)`. -/
def incrementStats (st : CacheStats) (statType : String) : CacheStats :=
  incrementStatsBy st statType 1

/-- Outcome of `Cache.Get`. -/
inductive GetResult (V : Type) where
  | notFound
  | decodeError
  | found (v : V)
deriving DecidableEq

/-- `Cache.Get(ctx, key, dest)`: fetch the fully-qualified key; absence
(`redis.Nil`) increments `misses` and reports not-found; an unmarshal
failure returns the decoding error with no stats change; success increments
`hits`.  Transient (non-`redis.Nil`) backend read errors are not modelled. -/
def Cache.Get {V : Type} (cfg : CacheConfig) (decode : Bytes → Option V)
    (s : CacheState) (key : String) : GetResult V × CacheState :=
  let fullKey := createKey cfg key
  match storeGet s.store fullKey with
  | none =>
    (GetResult.notFound, { s with stats := incrementStats s.stats "misses" })
  | some data =>
    match decode data with
    | none => (GetResult.decodeError, s)
    | some v => (GetResult.found v, { s with stats := incrementStats s.stats "hits" })

/-- Errors of `Cache.Delete`. -/
inductive DeleteError where
  | countMismatch (expected got : Nat)
deriving DecidableEq

/-- `Cache.Delete(ctx, keys...)`: empty key list returns immediately;
otherwise one backend `DEL` round trip, `deletes` incremented (by one), and
an error exactly when the backend reports a deletion count different from
the number of keys requested.  Backend I/O failure of `DEL` itself is not
modelled. -/
def Cache.Delete (cfg : CacheConfig) (s : CacheState) (keys : List String) :
    Option DeleteError × CacheState :=
  if keys.length = 0 then (none, s)
  else
    let fullKeys := keys.map (createKey cfg)
    let r := storeDelAll s.store fullKeys
    let s' := { s with store := r.2, stats := incrementStats s.stats "deletes" }
    if r.1 ≠ keys.length then
      (some (DeleteError.countMismatch keys.length r.1), s')
    else
      (none, s')

theorem storeDelAll_le (keys : List String) :
    ∀ store : Store, (storeDelAll store keys).1 ≤ keys.length := by
  induction keys with
  | nil => intro store; simp [storeDelAll]
  | cons k ks ih =>
    intro store
    simp only [storeDelAll, List.length_cons]
    have := ih (storeDel1 store k).2
    by_cases h : (storeDel1 store k).1 <;> simp [h] <;> omega

theorem storeDel1_absent {store : Store} {key : String}
    (h : storeGet store key = none) : storeDel1 store key = (false, store) := by
  induction store with
  | nil => simp [storeDel1]
  | cons e rest ih =>
    obtain ⟨k, d, t⟩ := e
    by_cases hk : k = key
    · simp [storeGet, hk] at h
    · simp only [storeGet, if_neg hk] at h
      simp [storeDel1, hk, ih h]

theorem storeDelAll_absent {keys : List String} :
    ∀ {store : Store}, (∀ k ∈ keys, storeGet store k = none) →
      storeDelAll store keys = (0, store) := by
  induction keys with
  | nil => intro store _; simp [storeDelAll]
  | cons k ks ih =>
    intro store h
    have h1 : storeDel1 store k = (false, store) :=
      storeDel1_absent (h k (by simp))
    simp only [storeDelAll, h1]
    rw [ih (fun k' hk' => h k' (by simp [hk']))]
    simp

/-- C3 counterexample: with the key present but its payload failing to
decode, `Get` returns the decoding error and the `Hits` counter stays 0
(the claim expects it to be incremented to 1). -/
theorem cacheGet_decodeFailure_counterexample :
    (Cache.Get defaultCacheConfig (fun _ => (none : Option Nat))
        { store := [("blueprint:k", [0], 3600)],
          stats := { Hits := 0, Misses := 0, Sets := 0, Deletes := 0 } }
        "k").1 = GetResult.decodeError ∧
      (Cache.Get defaultCacheConfig (fun _ => (none : Option Nat))
        { store := [("blueprint:k", [0], 3600)],
          stats := { Hits := 0, Misses := 0, Sets := 0, Deletes := 0 } }
        "k").2.stats.Hits = 0 ∧
      ¬ (Cache.Get defaultCacheConfig (fun _ => (none : Option Nat))
        { store := [("blueprint:k", [0], 3600)],
          stats := { Hits := 0, Misses := 0, Sets := 0, Deletes := 0 } }
        "k").2.stats.Hits = 0 + 1 := by
  refine ⟨rfl, rfl, by decide⟩

/-- C3 (amended): when the backend fetch succeeds but decoding fails, `Get`
returns a distinct decoding error and leaves the whole cache state — in
particular both the `Hits` and the `Misses` counters — unchanged. -/
theorem cacheGet_decodeFailure_amended {V : Type} (cfg : CacheConfig)
    (decode : Bytes → Option V) (s : CacheState) (key : String) (data : Bytes)
    (hfetch : storeGet s.store (createKey cfg key) = some data)
    (hdec : decode data = none) :
    Cache.Get cfg decode s key = (GetResult.decodeError, s) := by
  simp [Cache.Get, hfetch, hdec]

/-- Witness for `cacheGet_decodeFailure_amended`. -/
theorem cacheGet_decodeFailure_amended_witness :
    storeGet [("blueprint:k", ([0] : Bytes), (3600 : Int))] "blueprint:k" =
        some [0] ∧
      (fun _ : Bytes => (none : Option Nat)) [0] = none ∧
      Cache.Get defaultCacheConfig (fun _ => (none : Option Nat))
          { store := [("blueprint:k", [0], 3600)],
            stats := { Hits := 0, Misses := 0, Sets := 0, Deletes := 0 } } "k" =
        (GetResult.decodeError,
          { store := [("blueprint:k", [0], 3600)],
            stats := { Hits := 0, Misses := 0, Sets := 0, Deletes := 0 } }) :=
  ⟨by decide, rfl,
    cacheGet_decodeFailure_amended defaultCacheConfig (fun _ => none)
      { store := [("blueprint:k", [0], 3600)],
        stats := { Hits := 0, Misses := 0, Sets := 0, Deletes := 0 } }
      "k" [0] (by decide) rfl⟩

/-- C4 counterexample: deleting two present keys succeeds, yet the
`Deletes` counter rises by 1, not by the requested count 2. -/
theorem cacheDelete_counter_counterexample :
    (Cache.Delete defaultCacheConfig
        { store := [("blueprint:a", [1], 10), ("blueprint:b", [2], 10)],
          stats := { Hits := 0, Misses := 0, Sets := 0, Deletes := 0 } }
        ["a", "b"]).1 = none ∧
      (Cache.Delete defaultCacheConfig
        { store := [("blueprint:a", [1], 10), ("blueprint:b", [2], 10)],
          stats := { Hits := 0, Misses := 0, Sets := 0, Deletes := 0 } }
        ["a", "b"]).2.stats.Deletes = 1 ∧
      ¬ (Cache.Delete defaultCacheConfig
        { store := [("blueprint:a", [1], 10), ("blueprint:b", [2], 10)],
          stats := { Hits := 0, Misses := 0, Sets := 0, Deletes := 0 } }
        ["a", "b"]).2.stats.Deletes = 2 := by
  refine ⟨by decide, by decide, by decide⟩

/-- C4 (amended): for `n ≥ 1` keys, `Delete` increments the `Deletes`
counter by exactly one (per backend round trip, not by `n`), fails with the
partial-delete (count-mismatch) error exactly when the backend reports
fewer than `n` deletions, and does not roll back the keys already deleted:
the resulting backend content is the store with every present requested key
removed, whether or not the error is returned. -/
theorem cacheDelete_amended (cfg : CacheConfig) (s : CacheState)
    (keys : List String) (hne : keys ≠ []) :
    (Cache.Delete cfg s keys).2.stats.Deletes = s.stats.Deletes + 1 ∧
      ((Cache.Delete cfg s keys).1 ≠ none ↔
        (storeDelAll s.store (keys.map (createKey cfg))).1 < keys.length) ∧
      (Cache.Delete cfg s keys).2.store =
        (storeDelAll s.store (keys.map (createKey cfg))).2 := by
  have hlen : ¬ keys.length = 0 := by
    simpa [List.length_eq_zero] using hne
  have hle : (storeDelAll s.store (keys.map (createKey cfg))).1 ≤ keys.length := by
    simpa using storeDelAll_le (keys.map (createKey cfg)) s.store
  refine ⟨?_, ?_, ?_⟩
  · simp only [Cache.Delete, if_neg hlen]
    by_cases h : (storeDelAll s.store (keys.map (createKey cfg))).1 = keys.length <;>
      simp [h, incrementStats, incrementStatsBy]
  · simp only [Cache.Delete, if_neg hlen]
    by_cases h : (storeDelAll s.store (keys.map (createKey cfg))).1 = keys.length <;>
      simp [h] <;> omega
  · simp only [Cache.Delete, if_neg hlen]
    by_cases h : (storeDelAll s.store (keys.map (createKey cfg))).1 = keys.length <;>
      simp [h]

/-- Witness for `cacheDelete_amended`. -/
theorem cacheDelete_amended_witness :
    (["a", "b"] : List String) ≠ [] ∧
      (Cache.Delete defaultCacheConfig
        { store := [("blueprint:a", [1], 10), ("blueprint:b", [2], 10)],
          stats := { Hits := 0, Misses := 0, Sets := 0, Deletes := 0 } }
        ["a", "b"]).2.stats.Deletes = 0 + 1 :=
  ⟨by decide,
    (cacheDelete_amended defaultCacheConfig
      { store := [("blueprint:a", [1], 10), ("blueprint:b", [2], 10)],
        stats := { Hits := 0, Misses := 0, Sets := 0, Deletes := 0 } }
      ["a", "b"] (by decide)).1⟩

/-- C5 counterexample: deleting a key that is absent from the backend makes
the backend report 0 deletions against 1 requested, so `Delete` returns the
count-mismatch error — the claim that it does not error is false. -/
theorem cacheDelete_absent_counterexample :
    (Cache.Delete defaultCacheConfig
        { store := [],
          stats := { Hits := 0, Misses := 0, Sets := 0, Deletes := 0 } }
        ["k"]).1 = some (DeleteError.countMismatch 1 0) ∧
      ¬ (Cache.Delete defaultCacheConfig
        { store := [],
          stats := { Hits := 0, Misses := 0, Sets := 0, Deletes := 0 } }
        ["k"]).1 = none := by
  refine ⟨by decide, by decide⟩

/-- C5 (amended): deleting keys that are all already absent returns the
partial-delete (count-mismatch) error, and the `Deletes` counter is
incremented by exactly 1, which never exceeds the number of keys
requested. -/
theorem cacheDelete_absent_amended (cfg : CacheConfig) (s : CacheState)
    (keys : List String) (hne : keys ≠ [])
    (habs : ∀ fk ∈ keys.map (createKey cfg), storeGet s.store fk = none) :
    (Cache.Delete cfg s keys).1 =
        some (DeleteError.countMismatch keys.length 0) ∧
      (Cache.Delete cfg s keys).2.stats.Deletes = s.stats.Deletes + 1 ∧
      1 ≤ keys.length := by
  have hlen : ¬ keys.length = 0 := by
    simpa [List.length_eq_zero] using hne
  have hdel : storeDelAll s.store (keys.map (createKey cfg)) = (0, s.store) :=
    storeDelAll_absent habs
  refine ⟨?_, ?_, by omega⟩
  · simp only [Cache.Delete, if_neg hlen, hdel]
    rw [if_pos (by omega)]
  · simp only [Cache.Delete, if_neg hlen, hdel]
    rw [if_pos (by omega)]
    simp [incrementStats, incrementStatsBy]

/-- Witness for `cacheDelete_absent_amended`. -/
theorem cacheDelete_absent_amended_witness :
    (["k"] : List String) ≠ [] ∧
      (∀ fk ∈ (["k"] : List String).map (createKey defaultCacheConfig),
        storeGet ([] : Store) fk = none) ∧
      (Cache.Delete defaultCacheConfig
        { store := [],
          stats := { Hits := 0, Misses := 0, Sets := 0, Deletes := 0 } }
        ["k"]).1 = some (DeleteError.countMismatch 1 0) :=
  ⟨by decide, by decide,
    (cacheDelete_absent_amended defaultCacheConfig
      { store := [],
        stats := { Hits := 0, Misses := 0, Sets := 0, Deletes := 0 } }
      ["k"] (by decide) (by decide)).1⟩

/-- C9: `Delete` with an empty key list returns success immediately and
leaves the whole cache state — backend content and all four statistics
counters — unchanged. -/
theorem cacheDelete_empty_noop (cfg : CacheConfig) (s : CacheState) :
    Cache.Delete cfg s [] = (none, s) := by
  simp [Cache.Delete]

/-- Errors of `Cache.Set` / `Cache.SetWithTTL`. -/
inductive SetError where
  | encodingError
  | backendError
deriving DecidableEq

/-- `retryDelay` (100 ms). -/
def retryDelay : Int := 100

/-- The retry loop of `Cache.Set`: `for i := 0; i < maxRetries; i++`.
`attemptOk i` injects the backend outcome of attempt `i`.  Returns the
index of the first successful attempt (if any) and the list of backoff
sleeps performed: after a failed attempt `i`, the code sleeps
`retryDelay * (i+1)` unless `i` was the last attempt. -/
def setLoop (attemptOk : Nat → Bool) (maxRetries : Nat) :
    Nat → Nat → Option Nat × List Int
  | _, 0 => (none, [])
  | i, fuel + 1 =>
    if attemptOk i then (some i, [])
    else
      let r := setLoop attemptOk maxRetries (i + 1) fuel
      (r.1, if i < maxRetries - 1 then retryDelay * (Int.ofNat i + 1) :: r.2 else r.2)

/-- `Cache.Set(ctx, key, value)`: `encoded` is the `json.Marshal` result
(`none` models a marshal failure); on backend failure the write is retried
up to `maxRetries` attempts with linearly increasing backoff; the value is
stored under the default expiration and `sets` is incremented only on a
confirmed successful write.  The returned list is the sequence of backoff
sleeps. -/
def Cache.Set (cfg : CacheConfig) (s : CacheState) (key : String)
    (encoded : Option Bytes) (attemptOk : Nat → Bool) :
    Option SetError × CacheState × List Int :=
  match encoded with
  | none => (some SetError.encodingError, s, [])
  | some data =>
    let fullKey := createKey cfg key
    let r := setLoop attemptOk cfg.maxRetries 0 cfg.maxRetries
    match r.1 with
    | some _ =>
      (none,
        { s with store := storeSet s.store fullKey data cfg.expiration,
                 stats := incrementStats s.stats "sets" },
        r.2)
    | none => (some SetError.backendError, s, r.2)

/-- `Cache.SetWithTTL(ctx, key, value, ttl)`: a single backend attempt with
the explicit TTL, no retry; `sets` is incremented only on success. -/
def Cache.SetWithTTL (cfg : CacheConfig) (s : CacheState) (key : String)
    (encoded : Option Bytes) (ttl : Int) (backendOk : Bool) :
    Option SetError × CacheState :=
  match encoded with
  | none => (some SetError.encodingError, s)
  | some data =>
    if backendOk then
      (none,
        { s with store := storeSet s.store (createKey cfg key) data ttl,
                 stats := incrementStats s.stats "sets" })
    else (some SetError.backendError, s)

/-- C6: `Set` fails with the encoding error on serialization failure
(without touching the backend or the counters); with `maxRetries = 3` it
performs up to three attempts with backoff sleeps `retryDelay * 1` and
`retryDelay * 2` (base 100 ms) between them, returns an error only after
all three attempts fail, and increments `Sets` (writing the value under the
default expiration) exactly when some attempt succeeds.  `SetWithTTL`
performs exactly one attempt with the explicit TTL, never sleeps or
retries, and increments `Sets` only on success. -/
theorem cacheSet_retry_policy (cfg : CacheConfig) (s : CacheState)
    (key : String) (data : Bytes) (attemptOk : Nat → Bool)
    (hmr : cfg.maxRetries = 3) :
    Cache.Set cfg s key none attemptOk = (some SetError.encodingError, s, []) ∧
      (attemptOk 0 = true →
        Cache.Set cfg s key (some data) attemptOk =
          (none,
            { s with store := storeSet s.store (createKey cfg key) data cfg.expiration,
                     stats := incrementStats s.stats "sets" },
            [])) ∧
      (attemptOk 0 = false → attemptOk 1 = true →
        Cache.Set cfg s key (some data) attemptOk =
          (none,
            { s with store := storeSet s.store (createKey cfg key) data cfg.expiration,
                     stats := incrementStats s.stats "sets" },
            [retryDelay * 1])) ∧
      (attemptOk 0 = false → attemptOk 1 = false → attemptOk 2 = true →
        Cache.Set cfg s key (some data) attemptOk =
          (none,
            { s with store := storeSet s.store (createKey cfg key) data cfg.expiration,
                     stats := incrementStats s.stats "sets" },
            [retryDelay * 1, retryDelay * 2])) ∧
      (attemptOk 0 = false → attemptOk 1 = false → attemptOk 2 = false →
        Cache.Set cfg s key (some data) attemptOk =
          (some SetError.backendError, s, [retryDelay * 1, retryDelay * 2])) ∧
      (∀ ttl : Int,
        Cache.SetWithTTL cfg s key none ttl true = (some SetError.encodingError, s) ∧
        Cache.SetWithTTL cfg s key none ttl false = (some SetError.encodingError, s) ∧
        Cache.SetWithTTL cfg s key (some data) ttl true =
          (none,
            { s with store := storeSet s.store (createKey cfg key) data ttl,
                     stats := incrementStats s.stats "sets" }) ∧
        Cache.SetWithTTL cfg s key (some data) ttl false =
          (some SetError.backendError, s)) := by
  refine ⟨rfl, ?_, ?_, ?_, ?_, ?_⟩
  · intro h0
    simp [Cache.Set, hmr, setLoop, h0]
  · intro h0 h1
    simp [Cache.Set, hmr, setLoop, h0, h1]
  · intro h0 h1 h2
    simp [Cache.Set, hmr, setLoop, h0, h1, h2]
  · intro h0 h1 h2
    simp [Cache.Set, hmr, setLoop, h0, h1, h2]
  · intro ttl
    refine ⟨rfl, rfl, by simp [Cache.SetWithTTL], by simp [Cache.SetWithTTL]⟩

/-- Witness for `cacheSet_retry_policy`: every attempt failing yields the
backend error after backoffs 100 and 200. -/
theorem cacheSet_retry_policy_witness :
    defaultCacheConfig.maxRetries = 3 ∧
      Cache.Set defaultCacheConfig
          { store := [],
            stats := { Hits := 0, Misses := 0, Sets := 0, Deletes := 0 } }
          "k" (some [7]) (fun _ => false) =
        (some SetError.backendError,
          { store := [],
            stats := { Hits := 0, Misses := 0, Sets := 0, Deletes := 0 } },
          [100, 200]) :=
  ⟨rfl,
    (cacheSet_retry_policy defaultCacheConfig
      { store := [],
        stats := { Hits := 0, Misses := 0, Sets := 0, Deletes := 0 } }
      "k" [7] (fun _ => false) rfl).2.2.2.2.1 rfl rfl rfl⟩

/-- The destination map `dest map[string]interface\x7b\x7d` of `GetBatch`,
modelled as an association list with map-assignment semantics. -/
def assocGet {V : Type} : List (String × V) → String → Option V
  | [], _ => none
  | (k, v) :: rest, key => if k = key then some v else assocGet rest key

/-- Map assignment `dest[key] = v`. -/
def assocSet {V : Type} : List (String × V) → String → V → List (String × V)
  | [], key, v => [(key, v)]
  | (k, w) :: rest, key, v =>
    if k = key then (key, v) :: rest else (k, w) :: assocSet rest key v

theorem assocGet_assocSet_self {V : Type} (l : List (String × V))
    (key : String) (v : V) : assocGet (assocSet l key v) key = some v := by
  induction l with
  | nil => simp [assocSet, assocGet]
  | cons hd tl ih =>
    obtain ⟨k, w⟩ := hd
    by_cases h : k = key
    · simp [assocSet, assocGet, h]
    · simp [assocSet, assocGet, h, ih]

theorem assocGet_assocSet_ne {V : Type} (l : List (String × V))
    (key key' : String) (v : V) (h : key' ≠ key) :
    assocGet (assocSet l key v) key' = assocGet l key' := by
  have h' : ¬ key = key' := fun hh => h hh.symm
  induction l with
  | nil => simp [assocSet, assocGet, h']
  | cons hd tl ih =>
    obtain ⟨k, w⟩ := hd
    by_cases hk : k = key
    · subst hk
      simp [assocSet, assocGet, h']
    · simp only [assocSet, if_neg hk]
      by_cases hk' : k = key'
      · simp [assocGet, hk']
      · simp [assocGet, hk', ih]

/-- The fetch-then-decode view of one `GetBatch` slot: the payload decoded
if the key is present and decodable, `none` otherwise. -/
def fetchDecode {V : Type} (cfg : CacheConfig) (decode : Bytes → Option V)
    (store : Store) (key : String) : Option V :=
  match storeGet store (createKey cfg key) with
  | some d => decode d
  | none => none

/-- The per-command loop of `GetBatch` over the pipeline results: a fetched
and decodable payload is recorded in `dest` and counted a hit; a fetched
but undecodable payload is skipped silently; an absent key (`redis.Nil`) is
counted a miss. -/
def getBatchLoop {V : Type} (cfg : CacheConfig) (decode : Bytes → Option V)
    (store : Store) :
    List String → List (String × V) → Nat → Nat →
      List (String × V) × Nat × Nat
  | [], dest, hits, misses => (dest, hits, misses)
  | key :: rest, dest, hits, misses =>
    match storeGet store (createKey cfg key) with
    | some data =>
      match decode data with
      | some v => getBatchLoop cfg decode store rest (assocSet dest key v) (hits + 1) misses
      | none => getBatchLoop cfg decode store rest dest hits misses
    | none => getBatchLoop cfg decode store rest dest hits (misses + 1)

/-- `Cache.GetBatch(ctx, keys, dest)`: all gets issued in one pipeline
(modelled as the per-key loop over the deterministic store), then `hits`
and `misses` added to the stats in bulk; the call itself succeeds.  A
pipeline-level transport failure is not modelled. -/
def Cache.GetBatch {V : Type} (cfg : CacheConfig) (decode : Bytes → Option V)
    (s : CacheState) (keys : List String) (dest : List (String × V)) :
    Option Unit × CacheState × List (String × V) :=
  let r := getBatchLoop cfg decode s.store keys dest 0 0
  (none,
    { s with stats :=
        incrementStatsBy (incrementStatsBy s.stats "hits" r.2.1) "misses" r.2.2 },
    r.1)

theorem getBatchLoop_spec {V : Type} (cfg : CacheConfig)
    (decode : Bytes → Option V) (store : Store) :
    ∀ (keys : List String) (dest : List (String × V)) (hits misses : Nat),
      (getBatchLoop cfg decode store keys dest hits misses).2.1 =
          hits + keys.countP (fun k => (fetchDecode cfg decode store k).isSome) ∧
        (getBatchLoop cfg decode store keys dest hits misses).2.2 =
          misses + keys.countP (fun k => (storeGet store (createKey cfg k)).isNone) ∧
        ∀ k : String,
          assocGet (getBatchLoop cfg decode store keys dest hits misses).1 k =
            if k ∈ keys ∧ (fetchDecode cfg decode store k).isSome then
              fetchDecode cfg decode store k
            else assocGet dest k := by
  intro keys
  induction keys with
  | nil =>
    intro dest hits misses
    refine ⟨by simp [getBatchLoop], by simp [getBatchLoop], ?_⟩
    intro k
    simp [getBatchLoop]
  | cons key rest ih =>
    intro dest hits misses
    have hfd : fetchDecode cfg decode store key =
        match storeGet store (createKey cfg key) with
        | some d => decode d
        | none => none := rfl
    match hget : storeGet store (createKey cfg key) with
    | some data =>
      have hfd' : fetchDecode cfg decode store key = decode data := by
        rw [hfd, hget]
      match hdec : decode data with
      | some v =>
        have hkey : fetchDecode cfg decode store key = some v := by rw [hfd', hdec]
        obtain ⟨ih1, ih2, ih3⟩ := ih (assocSet dest key v) (hits + 1) misses
        refine ⟨?_, ?_, ?_⟩
        · rw [getBatchLoop]
          simp only [hget, hdec, ih1, List.countP_cons, hkey]
          simp
          omega
        · rw [getBatchLoop]
          simp only [hget, hdec, ih2, List.countP_cons, hget]
          simp [hget]
        · intro k
          rw [getBatchLoop]
          simp only [hget, hdec, ih3]
          by_cases hk : k = key
          · subst hk
            simp only [hkey, List.mem_cons, true_or, true_and, Option.isSome_some,
              if_true, and_true]
            by_cases hmem : k ∈ rest
            · simp [hmem, hkey]
            · simp [hmem, hkey, assocGet_assocSet_self]
          · rw [assocGet_assocSet_ne dest key k v hk]
            by_cases hmem : k ∈ rest <;>
              simp [hmem, List.mem_cons, hk]
      | none =>
        have hkey : fetchDecode cfg decode store key = none := by rw [hfd', hdec]
        obtain ⟨ih1, ih2, ih3⟩ := ih dest hits misses
        refine ⟨?_, ?_, ?_⟩
        · rw [getBatchLoop]
          simp only [hget, hdec, ih1, List.countP_cons, hkey]
          simp
        · rw [getBatchLoop]
          simp only [hget, hdec, ih2, List.countP_cons]
          simp [hget]
        · intro k
          rw [getBatchLoop]
          simp only [hget, hdec, ih3]
          by_cases hk : k = key
          · subst hk
            simp [hkey]
          · by_cases hmem : k ∈ rest <;>
              simp [hmem, List.mem_cons, hk]
    | none =>
      have hkey : fetchDecode cfg decode store key = none := by rw [hfd, hget]
      obtain ⟨ih1, ih2, ih3⟩ := ih dest hits (misses + 1)
      refine ⟨?_, ?_, ?_⟩
      · rw [getBatchLoop]
        simp only [hget, ih1, List.countP_cons, hkey]
        simp
      · rw [getBatchLoop]
        simp only [hget, ih2, List.countP_cons]
        simp [hget]
        omega
      · intro k
        rw [getBatchLoop]
        simp only [hget, ih3]
        by_cases hk : k = key
        · subst hk
          simp [hkey]
        · by_cases hmem : k ∈ rest <;>
            simp [hmem, List.mem_cons, hk]

/-- C10: `GetBatch` (from an empty destination map) always returns success;
`Hits` grows by exactly the number of requested keys whose payload is
present and decodes, `Misses` by exactly the number of absent keys; a key
whose fetched payload fails to decode is silently omitted from the
destination map and counted in neither statistic; and every key recorded
in the destination map is one whose payload was fetched and decoded to the
recorded value. -/
theorem cacheGetBatch_partial_decode {V : Type} (cfg : CacheConfig)
    (decode : Bytes → Option V) (s : CacheState) (keys : List String) :
    (Cache.GetBatch cfg decode s keys []).1 = none ∧
      (Cache.GetBatch cfg decode s keys []).2.1.stats.Hits =
        s.stats.Hits +
          keys.countP (fun k => (fetchDecode cfg decode s.store k).isSome) ∧
      (Cache.GetBatch cfg decode s keys []).2.1.stats.Misses =
        s.stats.Misses +
          keys.countP (fun k => (storeGet s.store (createKey cfg k)).isNone) ∧
      (∀ (k : String) (d : Bytes),
        storeGet s.store (createKey cfg k) = some d → decode d = none →
        assocGet (Cache.GetBatch cfg decode s keys []).2.2 k = none) ∧
      (∀ (k : String) (v : V),
        assocGet (Cache.GetBatch cfg decode s keys []).2.2 k = some v →
        fetchDecode cfg decode s.store k = some v) := by
  obtain ⟨h1, h2, h3⟩ := getBatchLoop_spec cfg decode s.store keys [] 0 0
  refine ⟨rfl, ?_, ?_, ?_, ?_⟩
  · simp only [Cache.GetBatch, h1, h2, incrementStatsBy]
    simp
  · simp only [Cache.GetBatch, h1, h2, incrementStatsBy]
    simp
  · intro k d hget hdec
    have hkey : fetchDecode cfg decode s.store k = none := by
      simp [fetchDecode, hget, hdec]
    simp only [Cache.GetBatch, h3 k, hkey]
    simp [assocGet]
  · intro k v hv
    simp only [Cache.GetBatch] at hv
    rw [h3 k] at hv
    by_cases hc : k ∈ keys ∧ (fetchDecode cfg decode s.store k).isSome
    · rw [if_pos hc] at hv
      exact hv
    · rw [if_neg hc] at hv
      simp [assocGet] at hv

/-- Witness for `cacheGetBatch_partial_decode`: one decodable key, one
undecodable key, one absent key. -/
theorem cacheGetBatch_partial_decode_witness :
    storeGet [("blueprint:good", ([1] : Bytes), (10 : Int)),
        ("blueprint:bad", ([2] : Bytes), (10 : Int))] "blueprint:bad" =
        some [2] ∧
      (fun d : Bytes => if d = [1] then some 11 else (none : Option Nat)) [2] =
        none ∧
      assocGet (Cache.GetBatch defaultCacheConfig
          (fun d : Bytes => if d = [1] then some 11 else (none : Option Nat))
          { store := [("blueprint:good", [1], 10), ("blueprint:bad", [2], 10)],
            stats := { Hits := 0, Misses := 0, Sets := 0, Deletes := 0 } }
          ["good", "bad", "gone"] []).2.2 "bad" = none :=
  ⟨by decide, by decide,
    (cacheGetBatch_partial_decode defaultCacheConfig
      (fun d : Bytes => if d = [1] then some 11 else (none : Option Nat))
      { store := [("blueprint:good", [1], 10), ("blueprint:bad", [2], 10)],
        stats := { Hits := 0, Misses := 0, Sets := 0, Deletes := 0 } }
      ["good", "bad", "gone"]).2.2.2.1 "bad" [2] (by decide) (by decide)⟩

/-! ### Request handler (`handler/blueprint.go`) -/

/-- The `Metrics` struct of the handler. -/
structure Metrics where
  TotalRequests : Nat
  SuccessfulCalls : Nat
  FailedCalls : Nat
  CacheHits : Nat
  CacheMisses : Nat
  AvgResponseTime : Int
deriving DecidableEq

/-- `recordMetrics(duration, err)`: bump the total, then exactly one of the
success/failure counters depending on `err`, then fold `duration` into the
running average (`avg = duration` when `avg == 0`, else
`avg = (avg + duration) / 2`). -/
def recordMetrics (m : Metrics) (duration : Int) (err : Option String) : Metrics :=
  let m1 := { m with TotalRequests := m.TotalRequests + 1 }
  let m2 :=
    match err with
    | none => { m1 with SuccessfulCalls := m1.SuccessfulCalls + 1 }
    | some _ => { m1 with FailedCalls := m1.FailedCalls + 1 }
  if m2.AvgResponseTime = 0 then { m2 with AvgResponseTime := duration }
  else { m2 with AvgResponseTime := (m2.AvgResponseTime + duration) / 2 }

/-- `incrementCacheHit`. -/
def incrementCacheHit (m : Metrics) : Metrics :=
  { m with CacheHits := m.CacheHits + 1 }

/-- `incrementCacheMiss`. -/
def incrementCacheMiss (m : Metrics) : Metrics :=
  { m with CacheMisses := m.CacheMisses + 1 }

/-- `pb.CallRequest` (from the generated proto code: the one field used by
the handler is `Name`). -/
structure CallRequest where
  name : String
deriving DecidableEq

/-- `validateRequest(req)`: `nil` request, empty name, or a name longer
than 100 bytes (`len(req.Name) > 100`) is rejected, in that order. -/
def validateRequest : Option CallRequest → Option String
  | none => some "request is nil"
  | some r =>
    if r.name = "" then some "name is required"
    else if 100 < r.name.utf8ByteSize then some "name is too long"
    else none

/-- The status returned by `Call`. -/
inductive CallOutcome where
  | invalidArgument (msg : String)
  | resourceExhausted
  | internalError
  | ok (msg : String)
deriving DecidableEq

/-- The handler state touched by `Call`: metrics, rate limiter, cache. -/
structure HandlerState where
  metrics : Metrics
  rateLimiter : RateLimiter
  cache : CacheState
deriving DecidableEq

/-- The handler as wired by `NewBlueprint`, before any request. -/
def newHandlerState : HandlerState :=
  { metrics :=
      { TotalRequests := 0, SuccessfulCalls := 0, FailedCalls := 0,
        CacheHits := 0, CacheMisses := 0, AvgResponseTime := 0 },
    rateLimiter := newRateLimiter,
    cache := { store := [],
               stats := { Hits := 0, Misses := 0, Sets := 0, Deletes := 0 } } }

/-- The deferred hook of `Call`: it invokes `recordMetrics` with the
elapsed duration and a hard-coded `nil` error, regardless of how the
pipeline terminated. -/
def finishCall (duration : Int) (out : CallOutcome) (b : HandlerState) :
    CallOutcome × HandlerState :=
  (out, { b with metrics := recordMetrics b.metrics duration none })

/-- `Blueprint.Call`: validate, rate-limit (keyed by the request name),
look up `"call:" + name` in the cache (a hit is returned as-is and counted;
a miss — absence or a cached payload that fails to decode — counts a cache
miss), compute the greeting, run the business logic (which in the source
returns `nil` unless the request context is already cancelled; its database
probe failure is only logged), best-effort cache the response with a
5-minute TTL (300 s; a write failure is only logged), and return.  The
deferred metrics hook always runs last, with a `nil` error (see
`finishCall`).  `decode`/`encode` model the JSON (un)marshalling of the
cached `CallResponse`, `setOk` the backend outcome of the cache write. -/
def Call (cfg : CacheConfig) (decode : Bytes → Option String)
    (encode : String → Bytes) (b : HandlerState) (req : Option CallRequest)
    (now duration : Int) (setOk : Bool) : CallOutcome × HandlerState :=
  match req with
  | none => finishCall duration (CallOutcome.invalidArgument "request is nil") b
  | some r =>
    match validateRequest (some r) with
    | some msg => finishCall duration (CallOutcome.invalidArgument msg) b
    | none =>
      let rlr := checkRateLimit b.rateLimiter r.name now
      let b1 := { b with rateLimiter := rlr.2 }
      if rlr.1 = false then
        finishCall duration CallOutcome.resourceExhausted b1
      else
        let cacheKey := "call:" ++ r.name
        let got := Cache.Get cfg decode b1.cache cacheKey
        match got.1 with
        | GetResult.found msg =>
          finishCall duration (CallOutcome.ok msg)
            { b1 with cache := got.2, metrics := incrementCacheHit b1.metrics }
        | _ =>
          let b2 := { b1 with cache := got.2,
                              metrics := incrementCacheMiss b1.metrics }
          let response := "Hello " ++ r.name ++ " from Forex Platform"
          let wr := Cache.SetWithTTL cfg b2.cache cacheKey
            (some (encode response)) 300 setOk
          finishCall duration (CallOutcome.ok response) { b2 with cache := wr.2 }

/-- C2 is a code bug: the deferred hook of `Call` passes a hard-coded `nil`
error to `recordMetrics`, so a call that terminates with a validation
failure (`Call` with an empty name, returning `InvalidArgument`) still
increments `SuccessfulCalls` and leaves `FailedCalls` at zero, contradicting
the claimed behaviour.  This theorem evaluates the embedded code at that
failing input: the total is bumped and the running average is seeded with
the sample, but the failure counter never moves. -/
theorem call_metrics_nil_error_bug :
    (Call defaultCacheConfig (fun _ => none) (fun _ => []) newHandlerState
        (some { name := "" }) 0 7 true).1 =
      CallOutcome.invalidArgument "name is required" ∧
    (Call defaultCacheConfig (fun _ => none) (fun _ => []) newHandlerState
        (some { name := "" }) 0 7 true).2.metrics.TotalRequests = 1 ∧
    (Call defaultCacheConfig (fun _ => none) (fun _ => []) newHandlerState
        (some { name := "" }) 0 7 true).2.metrics.SuccessfulCalls = 1 ∧
    (Call defaultCacheConfig (fun _ => none) (fun _ => []) newHandlerState
        (some { name := "" }) 0 7 true).2.metrics.FailedCalls = 0 ∧
    (Call defaultCacheConfig (fun _ => none) (fun _ => []) newHandlerState
        (some { name := "" }) 0 7 true).2.metrics.AvgResponseTime = 7 := by
  refine ⟨rfl, rfl, rfl, rfl, rfl⟩

/-- C7: `Call` returns `InvalidArgument` exactly when the request is nil,
the name is empty, or the name exceeds 100 bytes (`len(req.Name) > 100`);
and every valid, rate-limit-admitted request that misses the cache (and so
completes the business logic) returns the message
`"Hello " + name + " from Forex Platform"`. -/
theorem call_validation_and_message (cfg : CacheConfig)
    (decode : Bytes → Option String) (encode : String → Bytes)
    (b : HandlerState) (now duration : Int) (setOk : Bool) (r : CallRequest)
    (hname : r.name ≠ "")
    (hlen : r.name.utf8ByteSize ≤ 100)
    (hallow : (checkRateLimit b.rateLimiter r.name now).1 = true)
    (hmiss : (Cache.Get cfg decode b.cache ("call:" ++ r.name)).1 =
        (GetResult.notFound : GetResult String) ∨
      (Cache.Get cfg decode b.cache ("call:" ++ r.name)).1 =
        (GetResult.decodeError : GetResult String)) :
    (∀ req' : Option CallRequest,
      (∃ m, (Call cfg decode encode b req' now duration setOk).1 =
          CallOutcome.invalidArgument m) ↔
        (req' = none ∨ ∃ r', req' = some r' ∧
          (r'.name = "" ∨ 100 < r'.name.utf8ByteSize))) ∧
      (Call cfg decode encode b (some r) now duration setOk).1 =
        CallOutcome.ok ("Hello " ++ r.name ++ " from Forex Platform") := by
  have hval : ∀ r' : CallRequest, r'.name ≠ "" → r'.name.utf8ByteSize ≤ 100 →
      validateRequest (some r') = none := by
    intro r' h1 h2
    simp only [validateRequest, if_neg h1]
    rw [if_neg (by omega)]
  have hok : ∀ r' : CallRequest, r'.name ≠ "" → r'.name.utf8ByteSize ≤ 100 →
      ((Call cfg decode encode b (some r') now duration setOk).1 =
          CallOutcome.resourceExhausted ∨
        ∃ m, (Call cfg decode encode b (some r') now duration setOk).1 =
          CallOutcome.ok m) := by
    intro r' h1 h2
    simp only [Call, hval r' h1 h2]
    by_cases hrl : (checkRateLimit b.rateLimiter r'.name now).1 = false
    · simp [hrl, finishCall]
    · simp only [hrl, if_false, Bool.false_eq_true, if_neg]
      match hg : (Cache.Get cfg decode b.cache ("call:" ++ r'.name)).1 with
      | GetResult.found m => right; exact ⟨m, by simp [hg, finishCall]⟩
      | GetResult.notFound =>
        right
        exact ⟨"Hello " ++ r'.name ++ " from Forex Platform",
          by simp [hg, finishCall]⟩
      | GetResult.decodeError =>
        right
        exact ⟨"Hello " ++ r'.name ++ " from Forex Platform",
          by simp [hg, finishCall]⟩
  constructor
  · intro req'
    constructor
    · rintro ⟨m, hm⟩
      match req' with
      | none => exact Or.inl rfl
      | some r' =>
        right
        refine ⟨r', rfl, ?_⟩
        by_contra hc
        push_neg at hc
        rcases hok r' hc.1 (by omega) with h | ⟨m', hm'⟩
        · rw [hm] at h; cases h
        · rw [hm] at hm'; cases hm'
    · rintro (rfl | ⟨r', rfl, hr'⟩)
      · exact ⟨"request is nil", by simp [Call, finishCall]⟩
      · rcases hr' with he | hl
        · refine ⟨"name is required", ?_⟩
          simp [Call, validateRequest, he, finishCall]
        · by_cases he : r'.name = ""
          · exact ⟨"name is required", by simp [Call, validateRequest, he, finishCall]⟩
          · refine ⟨"name is too long", ?_⟩
            simp only [Call, validateRequest, if_neg he]
            rw [if_pos hl]
            simp [finishCall]
  · simp only [Call, hval r hname hlen]
    rw [if_neg (by simp [hallow])]
    rcases hmiss with hg | hg <;>
      simp [hg, finishCall]

/-- Witness for `call_validation_and_message` at a concrete valid request
against a fresh handler. -/
theorem call_validation_and_message_witness :
    ("Alice" : String) ≠ "" ∧
      ("Alice" : String).utf8ByteSize ≤ 100 ∧
      (checkRateLimit newHandlerState.rateLimiter "Alice" 0).1 = true ∧
      (Cache.Get defaultCacheConfig (fun _ => (none : Option String))
          newHandlerState.cache ("call:" ++ "Alice")).1 =
        (GetResult.notFound : GetResult String) ∧
      (Call defaultCacheConfig (fun _ => none) (fun _ => []) newHandlerState
          (some { name := "Alice" }) 0 7 true).1 =
        CallOutcome.ok ("Hello " ++ "Alice" ++ " from Forex Platform") :=
  ⟨by decide, by decide, by decide, by decide,
    (call_validation_and_message defaultCacheConfig (fun _ => none) (fun _ => [])
      newHandlerState 0 7 true { name := "Alice" } (by decide) (by decide)
      (by decide) (Or.inl (by decide))).2⟩







